import Mathlib

/-!
Shallow embedding of `program_10.py` (descriptive statistics and metrics for
USGS daily streamflow series) and verification of its specification claims.

Modelling conventions:
* A daily discharge reading is an `Option ℚ`: `none` models a missing value
  (pandas `NaN` in the `Discharge` column), `some q` a present reading.
* IEEE floating-point results of the ratio metrics are modelled by `Flo`:
  finite rationals, the two infinities, not-a-number, and (for the standard
  deviation only) exact positive square roots that are not rational.
* pandas semantics followed throughout: `.dropna()` keeps present values in
  order, `.sum()` of an empty or all-missing series is `0`, `.mean()` of an
  empty series is `NaN`, `.diff()` puts `NaN` in the first slot, `.std()`
  uses the sample (ddof = 1) formula and is `NaN` for fewer than 2 values,
  and float division `x / 0` is `NaN` when `x = 0`, `±∞` when `x ≠ 0`.
-/

/-- Model of an IEEE double as produced by the pipeline: `nan` is
not-a-number, `pinf`/`ninf` the infinities, `val q` a finite rational,
and `srt v` / `nsrt v` stand for `+√v` / `−√v` when the nonnegative
rational `v` is not the square of a rational (only the sample standard
deviation and the coefficient of variation produce such values). -/
inductive Flo where
  | nan : Flo
  | pinf : Flo
  | ninf : Flo
  | val : ℚ → Flo
  | srt : ℚ → Flo
  | nsrt : ℚ → Flo
deriving DecidableEq, Repr

/-- The present (non-missing) values of a bucket, in date order:
pandas `Series.dropna()`. -/
def present (Q : List (Option ℚ)) : List ℚ := Q.filterMap id

/-- pandas `Series.mean()`: arithmetic mean of the values, `NaN` when the
series is empty. -/
def pmean (xs : List ℚ) : Flo :=
  if xs.length = 0 then Flo.nan else Flo.val (xs.sum / xs.length)

/-- Float division of finite values: `a / 0` is `NaN` when `a = 0` and
`±∞` otherwise (IEEE semantics of the final divisions in the metrics). -/
def qdivF (a b : ℚ) : Flo :=
  if b = 0 then
    (if a = 0 then Flo.nan else if 0 < a then Flo.pinf else Flo.ninf)
  else Flo.val (a / b)

/-- `CalcTqmean` (source lines 58–75): drop missing values, let `T` be the
remaining count, return `count(v > mean) / T`.  For `T = 0` the mean is
`NaN`, every comparison is false and `0 / 0` is `NaN`. -/
def CalcTqmean (Q : List (Option ℚ)) : Flo :=
  let xs := present Q
  let T := xs.length
  if T = 0 then Flo.nan
  else Flo.val (((xs.filter (fun v => decide (xs.sum / T < v))).length : ℚ) / T)

/-- Sum of absolute day-to-day changes: pandas `abs(Qvalues.diff()).sum()`.
`diff` puts `NaN` in the first slot and `sum` skips it, so the result is the
sum of `|x_{i+1} − x_i|` over consecutive present values. -/
def pathLen (xs : List ℚ) : ℚ :=
  (List.zipWith (fun a b => |b - a|) xs xs.tail).sum

/-- `CalcRBindex` (source lines 77–101): drop missing values, divide the sum
of absolute day-to-day changes by the total discharge. -/
def CalcRBindex (Q : List (Option ℚ)) : Flo :=
  let xs := present Q
  qdivF (pathLen xs) xs.sum

/-- pandas `Series.rolling(window=7).mean()`: position `i` holds the mean of
the 7 values ending at `i`, or `NaN` for the first six positions. -/
def rollingMean7 (xs : List ℚ) : List (Option ℚ) :=
  (List.range xs.length).map (fun i =>
    if 6 ≤ i then some (((xs.drop (i - 6)).take 7).sum / 7) else none)

/-- pandas `Series.min()`: minimum of the present values, `NaN` when the
series is empty or all-missing. -/
def floMin (l : List (Option ℚ)) : Flo :=
  match present l with
  | [] => Flo.nan
  | x :: r => Flo.val (r.foldl min x)

/-- The 7-day low flow the source documents as the intent of `Calc7Q`
(docstring lines 104–110 and spec §4.3): minimum of the 7-day rolling means
of the present values, `NaN` when fewer than 7 present values exist. -/
def Calc7QIntended (Q : List (Option ℚ)) : Flo :=
  floMin (rollingMean7 (present Q))

/-- `Calc7Q` exactly as written (source line 116):
`val7Q = Qvalues.rolling(window=7).mean().min` takes the **bound method**
`min` without calling it, so the function returns an unapplied function
object, not the minimum value.  We model the returned method object as a
thunk whose application would yield the minimum. -/
def Calc7Q (Q : List (Option ℚ)) : Unit → Flo :=
  fun _ => floMin (rollingMean7 (present Q))

/-- Exact square root on ℚ: `some r` when the nonnegative rational is the
square of a rational, `none` otherwise. -/
def ratSqrt (q : ℚ) : Option ℚ :=
  if q < 0 then none
  else
    let a := q.num.toNat
    let b := q.den
    let sa := Nat.sqrt a
    let sb := Nat.sqrt b
    if sa * sa = a ∧ sb * sb = b then some ((sa : ℚ) / (sb : ℚ)) else none

/-- Sample variance (ddof = 1) of a list of rationals, defined for
`2 ≤ n`; the caller guards the degenerate cases. -/
def sampleVar (xs : List ℚ) : ℚ :=
  let n := xs.length
  let m := xs.sum / n
  (xs.map (fun x => (x - m) ^ 2)).sum / (n - 1)

/-- pandas `Series.std()` (sample standard deviation, ddof = 1): `NaN` for
fewer than 2 values, otherwise `√variance`, kept exact via `Flo.srt` when
the variance is not a rational square. -/
def sampleStd (xs : List ℚ) : Flo :=
  if xs.length < 2 then Flo.nan
  else
    match ratSqrt (sampleVar xs) with
    | some r => Flo.val r
    | none => Flo.srt (sampleVar xs)

/-- The coefficient-of-variation computation of `GetAnnualStatistics`
(source lines 165–167): `(sd / mean) * 100` per bucket, with IEEE
float semantics for the division (`NaN/x = NaN`, `x/NaN = NaN`,
`0/0 = NaN`, positive`/0 = +∞`). -/
def coeffVar (Q : List (Option ℚ)) : Flo :=
  match sampleStd (present Q), pmean (present Q) with
  | Flo.val s, Flo.val m =>
      if m = 0 then (if s = 0 then Flo.nan else Flo.pinf)
      else Flo.val (100 * s / m)
  | Flo.srt v, Flo.val m =>
      if m = 0 then Flo.pinf
      else if 0 < m then Flo.srt (10000 * v / m ^ 2)
      else Flo.nsrt (10000 * v / m ^ 2)
  | _, _ => Flo.nan

example : CalcTqmean [some 10, some 20, some 30, some 40, some 50] = Flo.val (2/5) := by
  norm_num [CalcTqmean, present, List.filterMap_cons, List.filter_cons]
example : CalcTqmean [some 10, none, some 30] = Flo.val (1/2) := by
  norm_num [CalcTqmean, present, List.filterMap_cons, List.filter_cons]
example : CalcRBindex [some 10, some 20, some 30, some 40, some 50] = Flo.val (40/150) := by
  norm_num [CalcRBindex, present, List.filterMap_cons, pathLen, qdivF]
example : CalcRBindex [some 1, some (-1)] = Flo.pinf := by
  norm_num [CalcRBindex, present, List.filterMap_cons, pathLen, qdivF]
example : coeffVar [some 0, some 0] = Flo.nan := by
  norm_num [coeffVar, present, List.filterMap_cons, sampleStd, sampleVar, ratSqrt, pmean]
example : Calc7Q [some 1, some 2, some 3, some 4, some 5, some 6, some 7] () = Flo.val 4 := by
  norm_num [Calc7Q, present, List.filterMap_cons, rollingMean7, floMin, List.range_succ]

/-! ### Dates, clipping and the annual aggregator -/

/-- A calendar date, as carried by the `Date` index column. -/
structure Date where
  y : ℕ
  m : ℕ
  d : ℕ
deriving DecidableEq, Repr

/-- Numeric key realising the lexicographic (chronological) order on valid
dates: pandas compares the `Date` index chronologically. -/
def dkey (a : Date) : ℕ := (a.y * 13 + a.m) * 32 + a.d

/-- Chronological comparison of dates (Boolean, for filters). -/
def dateLE (a b : Date) : Bool := dkey a ≤ dkey b

/-- Days in a calendar month, with the Gregorian leap rule. -/
def daysInMonth (y m : ℕ) : ℕ :=
  if m = 2 then
    (if y % 4 = 0 ∧ (y % 100 ≠ 0 ∨ y % 400 = 0) then 29 else 28)
  else if m = 4 ∨ m = 6 ∨ m = 9 ∨ m = 11 then 30
  else 31

/-- A well-formed calendar date (positive year, real month and day). -/
def validDate (a : Date) : Prop :=
  1 ≤ a.y ∧ 1 ≤ a.m ∧ a.m ≤ 12 ∧ 1 ≤ a.d ∧ a.d ≤ daysInMonth a.y a.m

instance (a : Date) : Decidable (validDate a) := by
  unfold validDate; infer_instance

/-- An Observation Sequence: the date-indexed `Discharge` column
(`none` models a missing reading). -/
abbrev ObsSeq : Type := List (Date × Option ℚ)

/-- Number of missing discharge values: `DataDF["Discharge"].isna().sum()`. -/
def missingCount (seq : ObsSeq) : ℕ :=
  (seq.filter (fun r => r.2 = none)).length

/-- `ClipData` (source lines 45–56): `DataDF.loc[startDate:endDate]` keeps
the rows whose date lies in the inclusive window (for a chronologically
sorted index, label slicing is exactly this filter), then recounts the
missing values of the clipped frame. -/
def ClipData (seq : ObsSeq) (startDate endDate : Date) : ObsSeq × ℕ :=
  let clipped := seq.filter (fun r => dateLE startDate r.1 && dateLE r.1 endDate)
  (clipped, missingCount clipped)

/-- Water-year key of a date: `resample('AS-OCT')` assigns a date with
month ≥ October to the water year starting that calendar year, otherwise to
the water year started the previous calendar year. -/
def wyKey (a : Date) : ℕ := if 10 ≤ a.m then a.y else a.y - 1

/-- The discharge values of the water-year bucket labeled by start year `Y`. -/
def wyBucket (seq : ObsSeq) (Y : ℕ) : List (Option ℚ) :=
  (seq.filter (fun r => wyKey r.1 = Y)).map Prod.snd

/-- `GetAnnualStatistics` (source lines 137–179), restricted to the row
index and the `Mean_Flow` column: `resample('AS-OCT')` produces one bin per
water year from the first date's water year through the last date's water
year — empty bins included — each labeled by its start date (October 1),
and `wateryear['Discharge'].mean()` is the bucket mean. -/
def GetAnnualStatistics (seq : ObsSeq) : List (Date × Flo) :=
  match seq.head?, seq.getLast? with
  | some a, some b =>
      (List.range' (wyKey a.1) (wyKey b.1 + 1 - wyKey a.1)).map
        (fun Y => (⟨Y, 10, 1⟩, pmean (present (wyBucket seq Y))))
  | _, _ => []

/-! ### The monthly-averages reducer -/

/-- Every 12th element of a list, starting at its head (python `xs[::12]`). -/
def every12 : List ℚ → List ℚ
  | [] => []
  | x :: r => x :: every12 (r.drop 11)
termination_by l => l.length
decreasing_by simp only [List.length_cons]; have := List.length_drop 11 r; omega

/-- python slice `xs[m::12]`. -/
def sliceFrom (xs : List ℚ) (m : ℕ) : List ℚ := every12 (xs.drop m)

/-- The position pairs of `GetMonthlyAverages` (source line 243): output
row `n` is filled from input positions `m::12`. -/
def gmaPairs : List (ℕ × ℕ) :=
  [(0,3),(1,4),(2,5),(3,6),(4,7),(5,8),(6,9),(7,10),(8,11),(9,0),(10,1),(11,2)]

/-- `GetMonthlyAverages` (source lines 223–256), restricted to one metric
column (e.g. `Mean_Flow`): the output has index `1..12`, and output row `n`
(0-based) holds the mean of input rows `m::12` for the pair `(n, m)`. -/
def GetMonthlyAverages (col : List ℚ) : List (ℕ × Flo) :=
  gmaPairs.map (fun p => (p.1 + 1, pmean (sliceFrom col p.2)))

/-! ### Example inputs used by witnesses and counterexamples -/

/-- The spec §8 concrete bucket. -/
def bucket5 : List (Option ℚ) := [some 10, some 20, some 30, some 40, some 50]

/-- The spec §8 bucket with a missing value. -/
def bucketMiss : List (Option ℚ) := [some 10, none, some 30]

/-- Seven consecutive present values 1..7. -/
def ex7 : List (Option ℚ) := [some 1, some 2, some 3, some 4, some 5, some 6, some 7]

/-- Two years of a monthly `Mean_Flow` column beginning in October:
position `i` holds value `i`. -/
def col24 : List ℚ :=
  [0, 1, 2, 3, 4, 5, 6, 7, 8, 9, 10, 11,
   12, 13, 14, 15, 16, 17, 18, 19, 20, 21, 22, 23]

/-- Uniform scaling of a bucket (missing values stay missing). -/
def scaleQ (c : ℚ) (Q : List (Option ℚ)) : List (Option ℚ) :=
  Q.map (Option.map (fun x => c * x))

/-- For a monthly table that begins in October, the rows of calendar month
`mo` sit at input positions `(mo + 2) % 12 :: 12` (October = position 0). -/
def monthRows (col : List ℚ) (mo : ℕ) : List ℚ :=
  sliceFrom col ((mo + 2) % 12)

/-! ### Helper lemmas -/

lemma present_map_some (xs : List ℚ) : present (xs.map some) = xs := by
  induction xs with
  | nil => rfl
  | cons x t ih => simp [present, List.filterMap_cons]

lemma present_scaleQ (c : ℚ) (Q : List (Option ℚ)) :
    present (scaleQ c Q) = (present Q).map (fun x => c * x) := by
  induction Q with
  | nil => rfl
  | cons o t ih =>
      cases o <;> simpa [present, scaleQ, List.filterMap_cons] using ih

lemma sum_map_mul (c : ℚ) (xs : List ℚ) :
    (xs.map (fun x => c * x)).sum = c * xs.sum := by
  induction xs with
  | nil => simp
  | cons x t ih => simp [ih, mul_add]

lemma qdivF_mul_left (c a b : ℚ) (hc : c ≠ 0) (hb : b ≠ 0) :
    qdivF (c * a) (c * b) = qdivF a b := by
  unfold qdivF
  rw [if_neg (mul_ne_zero hc hb), if_neg hb, mul_div_mul_left _ _ hc]

lemma pathLen_cons_cons (x y : ℚ) (t : List ℚ) :
    pathLen (x :: y :: t) = |y - x| + pathLen (y :: t) := by
  simp [pathLen]

lemma pathLen_map_mul (c : ℚ) (hc : 0 ≤ c) : ∀ (xs : List ℚ),
    pathLen (xs.map (fun x => c * x)) = c * pathLen xs
  | [] => by simp [pathLen]
  | [x] => by simp [pathLen]
  | x :: y :: t => by
      have ih := pathLen_map_mul c hc (y :: t)
      simp only [List.map_cons] at ih ⊢
      rw [pathLen_cons_cons, pathLen_cons_cons, ih, ← mul_sub, abs_mul,
        abs_of_nonneg hc, mul_add]

lemma pathLen_all_eq (v : ℚ) : ∀ (l : List ℚ), (∀ x ∈ l, x = v) → pathLen l = 0
  | [], _ => rfl
  | [_], _ => rfl
  | x :: y :: t, h => by
      rw [pathLen_cons_cons]
      have hx : x = v := h x (by simp)
      have hy : y = v := h y (by simp)
      have ht : pathLen (y :: t) = 0 :=
        pathLen_all_eq v (y :: t) (fun z hz => h z (List.mem_cons_of_mem x hz))
      rw [ht, hx, hy, sub_self, abs_zero, add_zero]

lemma all_zero_of_sum_zero (l : List ℚ) (hpos : ∀ x ∈ l, 0 ≤ x)
    (hsum : l.sum = 0) : ∀ x ∈ l, x = 0 := by
  induction l with
  | nil => simp
  | cons x t ih =>
      have hx : 0 ≤ x := hpos x (by simp)
      have ht : 0 ≤ t.sum := List.sum_nonneg (fun y hy => hpos y (by simp [hy]))
      rw [List.sum_cons] at hsum
      have hx0 : x = 0 := by linarith
      have hts : t.sum = 0 := by linarith
      intro y hy
      rcases List.mem_cons.1 hy with h | h
      · rw [h, hx0]
      · exact ih (fun z hz => hpos z (by simp [hz])) hts y h

lemma sampleVar_all_zero (l : List ℚ) (h : ∀ x ∈ l, x = 0) :
    sampleVar l = 0 := by
  have hs : l.sum = 0 := List.sum_eq_zero h
  have hm : (l.map (fun x => (x - l.sum / l.length) ^ 2)).sum = 0 := by
    apply List.sum_eq_zero
    intro y hy
    rcases List.mem_map.1 hy with ⟨x, hx, hxy⟩
    rw [← hxy, h x hx, hs, zero_div, sub_zero]
    norm_num
  simp only [sampleVar]
  rw [hm, zero_div]

lemma chain_head_le (f : α → ℕ) : ∀ (l : List α) (a : α),
    List.Chain' (fun p q => f p ≤ f q) l → l.head? = some a →
    ∀ x ∈ l, f a ≤ f x
  | [], _, _, h => by simp at h
  | c :: t, a, hch, hh => by
      have hac : c = a := by simpa using hh
      intro x hx
      rcases List.mem_cons.1 hx with h | h
      · rw [h, ← hac]
      · match t, h with
        | d :: t', h =>
            have h1 : f c ≤ f d := (List.chain'_cons.1 hch).1
            have h2 := chain_head_le f (d :: t') d (List.chain'_cons.1 hch).2 rfl x h
            rw [← hac]
            omega

lemma chain_le_last (f : α → ℕ) : ∀ (l : List α) (b : α),
    List.Chain' (fun p q => f p ≤ f q) l → l.getLast? = some b →
    ∀ x ∈ l, f x ≤ f b
  | [], _, _, h => by simp at h
  | [c], b, _, hl => by
      have : c = b := by simpa using hl
      subst this
      intro x hx
      have : x = c := by simpa using hx
      rw [this]
  | c :: d :: t, b, hch, hl => by
      have hl' : (d :: t).getLast? = some b := by
        simpa [List.getLast?_cons_cons] using hl
      have ih := chain_le_last f (d :: t) b (List.chain'_cons.1 hch).2 hl'
      intro x hx
      rcases List.mem_cons.1 hx with h | h
      · have h1 : f c ≤ f d := (List.chain'_cons.1 hch).1
        have h2 := ih d (by simp)
        rw [h]; omega
      · exact ih x h

/-! ### Claim theorems: the per-bucket metrics -/

/-- C3: for every bucket with `n > 0` present values, `CalcTqmean` returns
the fraction of present values strictly greater than the bucket mean,
`count(v > mean) / n`, and this value lies in `[0, 1]`; concretely it
returns `2/5` on `[10, 20, 30, 40, 50]` and `1/2` on `[10, missing, 30]`
(the missing value excluded before computing). -/
theorem calcTqmean_fraction_in_unit_interval :
    (∀ Q : List (Option ℚ), 0 < (present Q).length →
      ∃ r : ℚ, CalcTqmean Q = Flo.val r ∧
        r = (((present Q).filter
            (fun v => decide ((present Q).sum / (present Q).length < v))).length : ℚ) /
          (present Q).length ∧
        0 ≤ r ∧ r ≤ 1) ∧
    CalcTqmean bucket5 = Flo.val (2/5) ∧
    CalcTqmean bucketMiss = Flo.val (1/2) := by
  refine ⟨?_, ?_, ?_⟩
  · intro Q hQ
    refine ⟨_, ?_, rfl, ?_, ?_⟩
    · simp only [CalcTqmean]
      rw [if_neg hQ.ne']
    · positivity
    · apply div_le_one_of_le₀
      · exact_mod_cast List.length_filter_le _ _
      · positivity
  · norm_num [CalcTqmean, bucket5, present, List.filterMap_cons, List.filter_cons]
  · norm_num [CalcTqmean, bucketMiss, present, List.filterMap_cons, List.filter_cons]

/-- C3 witness: the general part of the claim applied to the concrete
bucket `[10, 20, 30, 40, 50]`, whose Tqmean is `2/5 ∈ [0, 1]`. -/
theorem calcTqmean_fraction_in_unit_interval_witness :
    ∃ r : ℚ, CalcTqmean bucket5 = Flo.val r ∧
      r = (((present bucket5).filter
          (fun v => decide ((present bucket5).sum / (present bucket5).length < v))).length : ℚ) /
        (present bucket5).length ∧
      0 ≤ r ∧ r ≤ 1 :=
  calcTqmean_fraction_in_unit_interval.1 bucket5
    (by norm_num [bucket5, present, List.filterMap_cons])

/-- C4: the R-B Index is invariant under uniform positive scaling: for a
bucket with positive total discharge and any scalar `c > 0`,
`CalcRBindex (c·Q) = CalcRBindex Q`. -/
theorem calcRBindex_scaling_invariant (Q : List (Option ℚ)) (c : ℚ)
    (hQt : 0 < (present Q).sum) (hc : 0 < c) :
    CalcRBindex (scaleQ c Q) = CalcRBindex Q := by
  simp only [CalcRBindex]
  rw [present_scaleQ, pathLen_map_mul c hc.le, sum_map_mul]
  exact qdivF_mul_left c _ _ hc.ne' hQt.ne'

/-- C4 witness: doubling the bucket `[1, 2]` leaves its R-B Index unchanged. -/
theorem calcRBindex_scaling_invariant_witness :
    CalcRBindex (scaleQ 2 [some 1, some 2]) = CalcRBindex [some 1, some 2] :=
  calcRBindex_scaling_invariant [some 1, some 2] 2
    (by norm_num [present, List.filterMap_cons]) (by norm_num)

/-- C8: `CalcRBindex` removes the missing entries before differencing
(drop-missing-then-diff), so its result on any bucket equals the R-B Index
of the compacted present-value sequence; concretely `[10, missing, 30]`
behaves as `[10, 30]`, the gap across the missing day implicitly closed,
yielding `|30−10| / (10+30) = 1/2`. -/
theorem calcRBindex_drop_missing_then_diff :
    (∀ Q : List (Option ℚ), CalcRBindex Q = CalcRBindex ((present Q).map some)) ∧
    CalcRBindex bucketMiss = Flo.val (1/2) := by
  constructor
  · intro Q
    simp only [CalcRBindex]
    rw [present_map_some]
  · norm_num [CalcRBindex, bucketMiss, present, List.filterMap_cons, pathLen, qdivF]

/-- C9: a bucket whose single present value `v` is nonzero has R-B Index
`0`: the one differenced element is the missing marker, the absolute-sum
skips it, and `0 / v = 0`. -/
theorem calcRBindex_single_present (Q : List (Option ℚ)) (v : ℚ)
    (h : present Q = [v]) (hv : v ≠ 0) :
    CalcRBindex Q = Flo.val 0 := by
  simp only [CalcRBindex]
  rw [h]
  simp [pathLen, qdivF, hv]

/-- C9 witness: the singleton bucket `[5]` has R-B Index `0`. -/
theorem calcRBindex_single_present_witness :
    CalcRBindex [some 5] = Flo.val 0 :=
  calcRBindex_single_present [some 5] 5 rfl (by norm_num)

/-- C10: a non-empty bucket whose present values are all equal has Tqmean
`0`, not `1`: the comparison with the mean is strict, so the exceedance
count is `0`. -/
theorem calcTqmean_all_equal_zero (Q : List (Option ℚ)) (v : ℚ)
    (hne : present Q ≠ []) (hall : ∀ x ∈ present Q, x = v) :
    CalcTqmean Q = Flo.val 0 := by
  have hlen : (present Q).length ≠ 0 := by
    simpa using (List.length_pos.2 hne).ne'
  have hsum : (present Q).sum = ((present Q).length : ℚ) * v := by
    rw [List.sum_eq_card_nsmul (present Q) v hall, nsmul_eq_mul]
  have hmean : (present Q).sum / ((present Q).length : ℚ) = v := by
    rw [hsum, mul_comm, mul_div_assoc, div_self (by exact_mod_cast hlen), mul_one]
  simp only [CalcTqmean]
  rw [if_neg hlen]
  have hfil : (present Q).filter
      (fun x => decide ((present Q).sum / ((present Q).length : ℚ) < x)) = [] := by
    rw [List.filter_eq_nil_iff]
    intro a ha
    rw [hmean, hall a ha]
    simp
  rw [hfil]
  simp

/-- C10 witness: the constant bucket `[3, 3]` has Tqmean `0`. -/
theorem calcTqmean_all_equal_zero_witness :
    CalcTqmean [some 3, some 3] = Flo.val 0 :=
  calcTqmean_all_equal_zero [some 3, some 3] 3 (by simp [present, List.filterMap_cons])
    (by intro x hx
        simp only [present, List.filterMap_cons, id] at hx
        rcases List.mem_cons.1 hx with h | h
        · exact h
        · simpa using h)

lemma ratSqrt_zero : ratSqrt 0 = some 0 := by norm_num [ratSqrt]

/-- C6 counterexample: the bucket `[1, −1]` has total discharge `0`, yet
`CalcRBindex` yields `+∞` (the pathlength `|−1 − 1| = 2` is nonzero and is
divided by `0`), not not-a-number — the claim as stated fails for a bucket
with mixed-sign values. -/
theorem rbindex_zero_total_not_nan_counterexample :
    (present [some 1, some (-1)]).sum = 0 ∧
    CalcRBindex [some 1, some (-1)] = Flo.pinf ∧
    Flo.pinf ≠ Flo.nan := by
  refine ⟨?_, ?_, by decide⟩
  · norm_num [present, List.filterMap_cons]
  · norm_num [CalcRBindex, present, List.filterMap_cons, pathLen, qdivF]

/-- C6 (amended): for buckets of non-negative discharge values, the
division-by-zero cases of the ratio metrics surface as not-a-number rather
than an error: a zero present-value mean makes the coefficient of
variation `NaN`, and a zero total discharge makes `CalcRBindex` `NaN`. -/
theorem div_by_zero_metrics_yield_nan (Q : List (Option ℚ))
    (hpos : ∀ x ∈ present Q, 0 ≤ x) :
    (pmean (present Q) = Flo.val 0 → coeffVar Q = Flo.nan) ∧
    ((present Q).sum = 0 → CalcRBindex Q = Flo.nan) := by
  have key : (present Q).sum = 0 → ∀ x ∈ present Q, x = 0 :=
    all_zero_of_sum_zero _ hpos
  constructor
  · intro hmean
    have hlen : (present Q).length ≠ 0 := by
      intro h0
      rw [pmean, if_pos h0] at hmean
      exact Flo.noConfusion hmean
    have hsum : (present Q).sum = 0 := by
      rw [pmean, if_neg hlen] at hmean
      have hq : (present Q).sum / ((present Q).length : ℚ) = 0 := Flo.val.inj hmean
      rcases div_eq_zero_iff.1 hq with h | h
      · exact h
      · exact absurd (by exact_mod_cast h) hlen
    have hall : ∀ x ∈ present Q, x = 0 := key hsum
    by_cases h2 : (present Q).length < 2
    · have hstd : sampleStd (present Q) = Flo.nan := by
        rw [sampleStd, if_pos h2]
      simp only [coeffVar]
      rw [hstd, hmean]
    · have hvar : sampleVar (present Q) = 0 := sampleVar_all_zero _ hall
      have hstd : sampleStd (present Q) = Flo.val 0 := by
        rw [sampleStd, if_neg h2, hvar, ratSqrt_zero]
      simp only [coeffVar]
      rw [hstd, hmean]
      simp
  · intro hsum
    have hall := key hsum
    have hpl : pathLen (present Q) = 0 := pathLen_all_eq 0 _ hall
    simp only [CalcRBindex]
    rw [hpl, hsum]
    simp [qdivF]

/-- C6 witness: the amended claim applied to the all-zero bucket `[0, 0]`,
whose mean and total are both zero: both metrics are `NaN`. -/
theorem div_by_zero_metrics_yield_nan_witness :
    coeffVar [some 0, some 0] = Flo.nan ∧ CalcRBindex [some 0, some 0] = Flo.nan := by
  have h := div_by_zero_metrics_yield_nan [some 0, some 0]
    (by intro x hx
        simp [present, List.filterMap_cons] at hx
        exact hx.ge)
  exact ⟨h.1 (by norm_num [present, List.filterMap_cons, pmean]),
    h.2 (by norm_num [present, List.filterMap_cons])⟩

/-- A concrete two-day Observation Sequence (one present, one missing). -/
def wseq2 : ObsSeq := [(⟨2000, 1, 1⟩, some 1), (⟨2000, 1, 2⟩, none)]

/-- C5: clipping a chronologically sorted Observation Sequence to the
inclusive window bounded by its own first and last date returns the
sequence unchanged, with the same missing-value count as the whole
sequence. -/
theorem clipData_full_range_identity (seq : ObsSeq) (a b : Date × Option ℚ)
    (hh : seq.head? = some a) (hl : seq.getLast? = some b)
    (hsorted : List.Chain' (fun p q => dkey p.1 ≤ dkey q.1) seq) :
    ClipData seq a.1 b.1 = (seq, missingCount seq) := by
  have hkeep : ∀ r ∈ seq, (dateLE a.1 r.1 && dateLE r.1 b.1) = true := by
    intro r hr
    have h1 := chain_head_le (fun p : Date × Option ℚ => dkey p.1) seq a hsorted hh r hr
    have h2 := chain_le_last (fun p : Date × Option ℚ => dkey p.1) seq b hsorted hl r hr
    simp [dateLE, h1, h2]
  have hfil : seq.filter (fun r => dateLE a.1 r.1 && dateLE r.1 b.1) = seq :=
    List.filter_eq_self.2 hkeep
  simp only [ClipData]
  rw [hfil]

/-- C5 witness: clipping the concrete sequence `wseq2` to its own full date
range keeps both rows and its missing-value count. -/
theorem clipData_full_range_identity_witness :
    ClipData wseq2 ⟨2000, 1, 1⟩ ⟨2000, 1, 2⟩ = (wseq2, missingCount wseq2) :=
  clipData_full_range_identity wseq2 (⟨2000, 1, 1⟩, some 1) (⟨2000, 1, 2⟩, none)
    rfl rfl (by norm_num [List.chain'_cons, dkey, wseq2])

/-! ### Claim theorems: the aggregators and reducers -/

/-- C2 counterexample: for the 24-month `Mean_Flow` column `col24` that
begins in October (position `i` holds value `i`), the first output row of
`GetMonthlyAverages` carries `9`, the mean of the two Januaries (input
positions 3 and 15) — not `6`, the mean of the two Octobers (positions 0
and 12).  The output is therefore not ordered October-first. -/
theorem getMonthlyAverages_not_october_first :
    (GetMonthlyAverages col24).head? = some (1, Flo.val 9) ∧
    pmean (monthRows col24 10) = Flo.val 6 ∧
    Flo.val (9 : ℚ) ≠ Flo.val 6 := by
  refine ⟨?_, ?_, by simp⟩
  · norm_num [GetMonthlyAverages, gmaPairs, col24, sliceFrom, every12, pmean]
    intro h
    simp at h
  · norm_num [monthRows, col24, sliceFrom, every12, pmean]

/-- C2 (amended): `GetMonthlyAverages` produces exactly 12 rows, indexed
`1..12` in calendar order (January first, October tenth), each row holding
the mean of the input rows of the matching calendar month when the monthly
table begins in October (row `n` reads input positions `(n + 2) % 12 :: 12`);
in particular the October row (index 10) of `col24` is the mean `6` of its
two October values. -/
theorem getMonthlyAverages_calendar_month_rows (col : List ℚ) :
    (GetMonthlyAverages col).length = 12 ∧
    GetMonthlyAverages col =
      [(1, pmean (monthRows col 1)), (2, pmean (monthRows col 2)),
       (3, pmean (monthRows col 3)), (4, pmean (monthRows col 4)),
       (5, pmean (monthRows col 5)), (6, pmean (monthRows col 6)),
       (7, pmean (monthRows col 7)), (8, pmean (monthRows col 8)),
       (9, pmean (monthRows col 9)), (10, pmean (monthRows col 10)),
       (11, pmean (monthRows col 11)), (12, pmean (monthRows col 12))] ∧
    (GetMonthlyAverages col24)[9]? = some (10, Flo.val 6) := by
  refine ⟨rfl, ?_, ?_⟩
  · norm_num [GetMonthlyAverages, gmaPairs, monthRows]
  · norm_num [GetMonthlyAverages, gmaPairs, col24, sliceFrom, every12, pmean]
    intro h
    simp at h

lemma daysInMonth_le (y m : ℕ) : daysInMonth y m ≤ 31 := by
  unfold daysInMonth
  split_ifs <;> omega

/-- A valid date has water-year key `Y` exactly when it lies in the
inclusive window October 1 of `Y` … September 30 of `Y + 1`. -/
lemma wyKey_date_range (d : Date) (Y : ℕ) (hv : validDate d) :
    wyKey d = Y ↔ (dkey ⟨Y, 10, 1⟩ ≤ dkey d ∧ dkey d ≤ dkey ⟨Y + 1, 9, 30⟩) := by
  obtain ⟨hy, hm1, hm2, hd1, hd2⟩ := hv
  have h31 : d.d ≤ 31 := hd2.trans (daysInMonth_le _ _)
  by_cases h9 : d.m = 9
  · have h30 : d.d ≤ 30 := by
      rw [h9] at hd2
      norm_num [daysInMonth] at hd2
      exact hd2
    unfold wyKey dkey
    split_ifs <;> simp <;> omega
  · unfold wyKey dkey
    split_ifs <;> simp <;> omega

lemma wyKey_mono (p q : Date) (hp : validDate p) (hq : validDate q)
    (h : dkey p ≤ dkey q) : wyKey p ≤ wyKey q := by
  obtain ⟨hy1, hm1, hm2, hd1, hd2⟩ := hp
  obtain ⟨hy1', hm1', hm2', hd1', hd2'⟩ := hq
  have h31 : p.d ≤ 31 := hd2.trans (daysInMonth_le _ _)
  have h31' : q.d ≤ 31 := hd2'.trans (daysInMonth_le _ _)
  unfold wyKey
  unfold dkey at h
  split_ifs <;> omega

lemma chain_lt_range' : ∀ (n s : ℕ),
    List.Chain' (fun a b : ℕ => a < b) (List.range' s n)
  | 0, _ => List.chain'_nil
  | n + 1, s => by
      rw [List.range'_succ, List.chain'_cons']
      refine ⟨?_, chain_lt_range' n (s + 1)⟩
      intro y hy
      cases n with
      | zero => simp at hy
      | succ k =>
          rw [List.range'_succ] at hy
          simp at hy
          omega

/-- A concrete sorted sequence spanning exactly two water years
(2000-10-01 … 2001-10-02), with one missing value. -/
def wseq3 : ObsSeq :=
  [(⟨2000, 10, 1⟩, some 1), (⟨2001, 5, 1⟩, none), (⟨2001, 10, 2⟩, some 2)]

/-- C7: `GetAnnualStatistics` on a valid, chronologically sorted
Observation Sequence produces rows labeled by the consecutive water-year
start dates October 1 in ascending order; the bucket of water year `Y`
consists exactly of the observations dated within the inclusive window
October 1 of `Y` … September 30 of `Y + 1`; every water year in range
yields a row whether or not its bucket has present values; and an input
spanning exactly two water years yields exactly 2 rows. -/
theorem getAnnualStatistics_water_year_rows (seq : ObsSeq) (a b : Date × Option ℚ)
    (hh : seq.head? = some a) (hl : seq.getLast? = some b)
    (hvalid : ∀ r ∈ seq, validDate r.1)
    (_hsorted : List.Chain' (fun p q => dkey p.1 ≤ dkey q.1) seq) :
    ((GetAnnualStatistics seq).map Prod.fst =
      (List.range' (wyKey a.1) (wyKey b.1 + 1 - wyKey a.1)).map
        (fun Y => ⟨Y, 10, 1⟩)) ∧
    List.Chain' (fun p q : Date => dkey p < dkey q)
      ((GetAnnualStatistics seq).map Prod.fst) ∧
    (∀ Y : ℕ, wyBucket seq Y =
      (seq.filter
        (fun r => dateLE ⟨Y, 10, 1⟩ r.1 && dateLE r.1 ⟨Y + 1, 9, 30⟩)).map
        Prod.snd) ∧
    (∀ Y : ℕ, wyKey a.1 ≤ Y → Y ≤ wyKey b.1 →
      (⟨Y, 10, 1⟩ : Date) ∈ (GetAnnualStatistics seq).map Prod.fst) ∧
    (wyKey b.1 = wyKey a.1 + 1 → (GetAnnualStatistics seq).length = 2) := by
  have hGAS : GetAnnualStatistics seq =
      (List.range' (wyKey a.1) (wyKey b.1 + 1 - wyKey a.1)).map
        (fun Y => (⟨Y, 10, 1⟩, pmean (present (wyBucket seq Y)))) := by
    unfold GetAnnualStatistics
    rw [hh, hl]
  have hfst : (GetAnnualStatistics seq).map Prod.fst =
      (List.range' (wyKey a.1) (wyKey b.1 + 1 - wyKey a.1)).map
        (fun Y => ⟨Y, 10, 1⟩) := by
    rw [hGAS, List.map_map]
    rfl
  refine ⟨hfst, ?_, ?_, ?_, ?_⟩
  · rw [hfst, List.chain'_map]
    apply List.Chain'.imp _ (chain_lt_range' _ _)
    intro p q hpq
    unfold dkey
    simp only
    omega
  · intro Y
    unfold wyBucket
    congr 1
    apply List.filter_congr
    intro r hr
    have hiff := wyKey_date_range r.1 Y (hvalid r hr)
    simp only [dateLE, ← Bool.decide_and, decide_eq_decide]
    exact hiff
  · intro Y h1 h2
    rw [hfst]
    exact List.mem_map.2 ⟨Y, List.mem_range'_1.2 ⟨h1, by omega⟩, rfl⟩
  · intro h2
    rw [hGAS, List.length_map, List.length_range']
    omega

/-- C7 witness: the concrete two-water-year sequence `wseq3` produces
exactly 2 rows. -/
theorem getAnnualStatistics_water_year_rows_witness :
    (GetAnnualStatistics wseq3).length = 2 :=
  (getAnnualStatistics_water_year_rows wseq3 (⟨2000, 10, 1⟩, some 1)
    (⟨2001, 10, 2⟩, some 2) rfl rfl
    (by intro r hr
        simp [wseq3] at hr
        rcases hr with h | h | h <;> rw [h] <;> norm_num [validDate, daysInMonth]
      )
    (by norm_num [List.chain'_cons, dkey, wseq3])).2.2.2.2
    (by norm_num [wyKey])

/-! ### Claim theorem: the 7Q defect -/

/-- C1 (code defect): the body of `Calc7Q` takes the bound method `min` of
the rolling-mean series without applying it, so `Calc7Q` returns a
function object (modelled as a thunk), not the minimum value, for every
bucket; the intended semantics — minimum of the 7-day rolling means of the
present values in date order, not-a-number when fewer than 7 present
values exist — gives `4` on the seven present values `1..7` and
not-a-number on two present values. -/
theorem calc7Q_returns_unapplied_method :
    (∀ Q : List (Option ℚ), Calc7Q Q = fun _ => Calc7QIntended Q) ∧
    Calc7QIntended ex7 = Flo.val 4 ∧
    Calc7QIntended [some 1, some 2] = Flo.nan := by
  refine ⟨fun Q => rfl, ?_, ?_⟩
  · norm_num [Calc7QIntended, ex7, present, List.filterMap_cons, rollingMean7,
      floMin, List.range_succ]
  · norm_num [Calc7QIntended, present, List.filterMap_cons, rollingMean7,
      floMin, List.range_succ]
